import Mathlib

/-!
Verification of the level-retest scanner (src/app.py): the volatility
estimator (the function named atr) and the pattern scanner
(find_breakout_retests), embedded over lists of bars with exact rational
arithmetic standing in for the floating-point values of the source.
-/

namespace LevelRetest

/-- One OHLCV sample.  Only the fields the core reads are modelled:
timestamp, open and volume are never consulted by the estimator or the
scanner. -/
structure Bar where
  high : ℚ
  low : ℚ
  close : ℚ
  deriving DecidableEq, Repr, Inhabited

/-- df["Close"].iloc[i] -/
def closeAt (bars : List Bar) (i : Nat) : ℚ := (bars.getD i default).close

/-- df["Low"].iloc[i] -/
def lowAt (bars : List Bar) (i : Nat) : ℚ := (bars.getD i default).low

/-- df["High"].iloc[i] -/
def highAt (bars : List Bar) (i : Nat) : ℚ := (bars.getD i default).high

/-- True-range values for the bars after the first: prevClose is the close
of the bar immediately before the head of the list.  Mirrors
max(|high-low|, |high-prev_close|, |low-prev_close|) rowwise. -/
def trueRangeAux (prevClose : ℚ) : List Bar → List ℚ
  | [] => []
  | b :: rest =>
      max |b.high - b.low| (max |b.high - prevClose| |b.low - prevClose|) ::
        trueRangeAux b.close rest

/-- The true-range series.  At index 0 the previous close is undefined
(close.shift(1) is NaN there) and pandas max(axis=1) skips NaN entries,
so TR[0] = |high[0] - low[0]|. -/
def trueRange : List Bar → List ℚ
  | [] => []
  | b :: rest => |b.high - b.low| :: trueRangeAux b.close rest

/-- tr.rolling(n, min_periods=1).mean(): element k is the mean of the last
min(n, k+1) values ending at k (Nat subtraction clamps the window start
at 0). -/
def rollingMean (n : Nat) (xs : List ℚ) : List ℚ :=
  (List.range xs.length).map fun k =>
    let w := (xs.take (k + 1)).drop (k + 1 - n)
    w.sum / (w.length : ℚ)

/-- atr(df, n): rolling mean of the true-range series. -/
def atr (bars : List Bar) (n : Nat) : List ℚ := rollingMean n (trueRange bars)

/-- a.iloc[k] on the volatility series. -/
def volAt (vol : List ℚ) (k : Nat) : ℚ := vol.getD k 0

/-- First index in [lo, lo+n) whose predicate holds (a for-loop with
break). -/
def firstAux (p : Nat → Bool) : Nat → Nat → Option Nat
  | _, 0 => none
  | lo, n + 1 => if p lo then some lo else firstAux p (lo + 1) n

/-- First index j with lo ≤ j ≤ hi and p j, scanning upward; none when the
range is empty or no index qualifies. -/
def firstInRange (p : Nat → Bool) (lo hi : Nat) : Option Nat :=
  firstAux p lo (hi + 1 - lo)

/-- One emitted pattern match.  The source stores df.index[...] timestamps;
with strictly increasing timestamps these are in bijection with bar
indices, so the embedding records the indices the loop variables hold. -/
structure Event where
  breakout_idx : Nat
  retest_idx : Nat
  takeoff_idx : Nat
  level : ℚ
  close_at_takeoff : ℚ
  return_from_level_pct : ℚ
  bars_to_retest : Nat
  bars_to_takeoff : Nat
  atr_at_takeoff : ℚ
  deriving DecidableEq, Repr, Inhabited

/-- The retest test at bar j: low[j] ≤ tol_up and high[j] ≥ tol_dn and
close[j] ≥ level (the hold confirmation is checked at the same bar; a
touch that closes below the level does not stop the search). -/
def retestHit (bars : List Bar) (level tol_up tol_dn : ℚ) (j : Nat) : Bool :=
  decide (lowAt bars j ≤ tol_up ∧ tol_dn ≤ highAt bars j ∧ level ≤ closeAt bars j)

/-- The retest search for the candidate opened at breakout_idx: first j in
breakout_idx+1 .. min(len-1, breakout_idx+max_retest_window) passing
retestHit. -/
def candidateRetest (bars : List Bar) (level tolerance_pct : ℚ)
    (max_retest_window breakout_idx : Nat) : Option Nat :=
  firstInRange
    (retestHit bars level (level * (1 + tolerance_pct)) (level * (1 - tolerance_pct)))
    (breakout_idx + 1) (min (bars.length - 1) (breakout_idx + max_retest_window))

/-- The takeoff threshold at bar k: level*(1+takeoff_pct), raised to
level + atr_mult * vol[k] when the volatility gate is on. -/
def takeoffThreshold (vol : List ℚ) (level takeoff_pct : ℚ)
    (use_atr : Bool) (atr_mult : ℚ) (k : Nat) : ℚ :=
  let threshold := level * (1 + takeoff_pct)
  if use_atr then max threshold (level + atr_mult * volAt vol k) else threshold

/-- The takeoff search for a candidate whose retest is at retest_idx:
first k in retest_idx+1 .. min(len-1, retest_idx+takeoff_window) whose
close reaches the threshold. -/
def candidateTakeoff (bars : List Bar) (vol : List ℚ) (level takeoff_pct : ℚ)
    (takeoff_window : Nat) (use_atr : Bool) (atr_mult : ℚ)
    (retest_idx : Nat) : Option Nat :=
  firstInRange
    (fun k => decide (takeoffThreshold vol level takeoff_pct use_atr atr_mult k ≤ closeAt bars k))
    (retest_idx + 1) (min (bars.length - 1) (retest_idx + takeoff_window))

/-- The record appended to results when a candidate completes. -/
def mkEvent (bars : List Bar) (vol : List ℚ) (level : ℚ)
    (breakout_idx retest_idx takeoff_idx : Nat) : Event :=
  { breakout_idx := breakout_idx
    retest_idx := retest_idx
    takeoff_idx := takeoff_idx
    level := level
    close_at_takeoff := closeAt bars takeoff_idx
    return_from_level_pct := (closeAt bars takeoff_idx / level - 1) * 100
    bars_to_retest := retest_idx - breakout_idx
    bars_to_takeoff := takeoff_idx - retest_idx
    atr_at_takeoff := volAt vol takeoff_idx }

/-- The body of the outer loop at index i: when close crosses the level
from below at i, run the retest and takeoff searches and emit the event
if both succeed. -/
def scanStep (bars : List Bar) (vol : List ℚ) (level tolerance_pct : ℚ)
    (max_retest_window takeoff_window : Nat) (takeoff_pct : ℚ)
    (use_atr : Bool) (atr_mult : ℚ) (i : Nat) : Option Event :=
  if closeAt bars (i - 1) < level ∧ level ≤ closeAt bars i then
    match candidateRetest bars level tolerance_pct max_retest_window i with
    | none => none
    | some retest_idx =>
      match candidateTakeoff bars vol level takeoff_pct takeoff_window use_atr atr_mult retest_idx with
      | none => none
      | some takeoff_idx => some (mkEvent bars vol level i retest_idx takeoff_idx)
  else none

/-- The scanner generalized over the volatility series it consumes; the
source computes that series inline as atr(df, 14). -/
def scanWithVol (bars : List Bar) (vol : List ℚ) (level tolerance_pct : ℚ)
    (max_retest_window takeoff_window : Nat) (takeoff_pct : ℚ)
    (use_atr : Bool) (atr_mult : ℚ) : List Event :=
  (List.range' 1 (bars.length - 1)).filterMap
    (scanStep bars vol level tolerance_pct max_retest_window takeoff_window takeoff_pct use_atr atr_mult)

/-- find_breakout_retests(df, level, tolerance_pct, max_retest_window,
takeoff_window, takeoff_pct, use_atr, atr_mult): the loop over i in
range(1, len(df)) appending events in order of breakout index, with the
volatility series fixed to atr(df, 14). -/
def find_breakout_retests (bars : List Bar) (level tolerance_pct : ℚ)
    (max_retest_window takeoff_window : Nat) (takeoff_pct : ℚ)
    (use_atr : Bool) (atr_mult : ℚ) : List Event :=
  scanWithVol bars (atr bars 14) level tolerance_pct
    max_retest_window takeoff_window takeoff_pct use_atr atr_mult

/-- Scenario A of the spec: level 100, closes [99, 101, 100.2, 100.6],
bar 2 trades 99.9..100.05.  The unspecified highs and lows of bars
0, 1, 3 are set to their closes; the scanner never reads them on this
path (the retest scan starts after the breakout bar and bar 2 already
qualifies). -/
def scenarioA : List Bar :=
  [⟨99, 99, 99⟩, ⟨101, 101, 101⟩, ⟨100.05, 99.9, 100.2⟩, ⟨100.6, 100.6, 100.6⟩]

/-- A flat two-bar series strictly below the level 100: the close never
crosses it. -/
def scenarioC : List Bar :=
  [⟨99, 99, 99⟩, ⟨99, 99, 99⟩]

/-- A one-bar input: too short for any candidate pair. -/
def singleBar : List Bar :=
  [⟨99, 99, 99⟩]

/-- The true-range formula as the spec states it, as a function of the bar
index: the max of the three absolute differences, with the two
previous-close terms dropped at index 0. -/
def specTR (bars : List Bar) (k : Nat) : ℚ :=
  if k = 0 then |highAt bars 0 - lowAt bars 0|
  else
    max |highAt bars k - lowAt bars k|
      (max |highAt bars k - closeAt bars (k - 1)| |lowAt bars k - closeAt bars (k - 1)|)

/-- The volatility value the spec states at index k: the arithmetic mean of
TR over the indices max(0, k-W+1) .. k (Nat subtraction performs the
clamp at 0). -/
def specVol (bars : List Bar) (W k : Nat) : ℚ :=
  let idxs := List.range' (k + 1 - W) (k + 1 - (k + 1 - W))
  (idxs.map (specTR bars)).sum / (idxs.length : ℚ)

/-! ## Helper lemmas -/

theorem mem_range'_iff {s n m : Nat} : m ∈ List.range' s n ↔ s ≤ m ∧ m < s + n := by
  simp only [List.mem_range', Nat.one_mul]
  constructor
  · rintro ⟨i, hi, rfl⟩
    omega
  · intro h
    exact ⟨m - s, by omega, by omega⟩

theorem firstAux_some_iff (p : Nat → Bool) (n : Nat) :
    ∀ lo j, firstAux p lo n = some j ↔
      (lo ≤ j ∧ j < lo + n ∧ p j = true ∧ ∀ i, lo ≤ i → i < j → p i = false) := by
  induction n with
  | zero =>
    intro lo j
    simp only [firstAux]
    constructor
    · intro h
      cases h
    · rintro ⟨h1, h2, -⟩
      omega
  | succ n ih =>
    intro lo j
    rw [firstAux]
    by_cases hp : p lo = true
    · rw [if_pos hp]
      constructor
      · intro h
        cases h
        exact ⟨Nat.le_refl _, by omega, hp, fun i h1 h2 => absurd h2 (by omega)⟩
      · rintro ⟨h1, h2, h3, h4⟩
        have hj : j = lo := by
          by_contra hne
          have hlt : lo < j := by omega
          have hfalse := h4 lo (Nat.le_refl _) hlt
          rw [hp] at hfalse
          cases hfalse
        rw [hj]
    · rw [if_neg hp]
      rw [ih]
      have hplo : p lo = false := by
        simpa using hp
      constructor
      · rintro ⟨h1, h2, h3, h4⟩
        refine ⟨by omega, by omega, h3, fun i hi1 hi2 => ?_⟩
        rcases Nat.lt_or_ge i (lo + 1) with hlt | hge
        · have hi : i = lo := by omega
          rw [hi]
          exact hplo
        · exact h4 i hge hi2
      · rintro ⟨h1, h2, h3, h4⟩
        have hne : j ≠ lo := by
          intro h
          rw [h] at h3
          rw [hplo] at h3
          cases h3
        exact ⟨by omega, by omega, h3, fun i hi1 hi2 => h4 i (by omega) hi2⟩

theorem firstAux_none_iff (p : Nat → Bool) (n : Nat) :
    ∀ lo, firstAux p lo n = none ↔ ∀ i, lo ≤ i → i < lo + n → p i = false := by
  induction n with
  | zero =>
    intro lo
    simp only [firstAux]
    constructor
    · intro _ i h1 h2
      exact absurd h2 (by omega)
    · intro _
      trivial
  | succ n ih =>
    intro lo
    rw [firstAux]
    by_cases hp : p lo = true
    · rw [if_pos hp]
      constructor
      · intro h
        cases h
      · intro h
        have hfalse := h lo (Nat.le_refl _) (by omega)
        rw [hp] at hfalse
        cases hfalse
    · rw [if_neg hp]
      rw [ih]
      have hplo : p lo = false := by
        simpa using hp
      constructor
      · intro h i h1 h2
        rcases Nat.lt_or_ge i (lo + 1) with hlt | hge
        · have hi : i = lo := by omega
          rw [hi]
          exact hplo
        · exact h i hge (by omega)
      · intro h i h1 h2
        exact h i (by omega) (by omega)

theorem firstInRange_some_iff (p : Nat → Bool) (lo hi j : Nat) :
    firstInRange p lo hi = some j ↔
      (lo ≤ j ∧ j ≤ hi ∧ p j = true ∧ ∀ i, lo ≤ i → i < j → p i = false) := by
  rw [firstInRange, firstAux_some_iff]
  constructor
  · rintro ⟨h1, h2, h3, h4⟩
    exact ⟨h1, by omega, h3, h4⟩
  · rintro ⟨h1, h2, h3, h4⟩
    exact ⟨h1, by omega, h3, h4⟩

theorem firstInRange_none_iff (p : Nat → Bool) (lo hi : Nat) :
    firstInRange p lo hi = none ↔ ∀ i, lo ≤ i → i ≤ hi → p i = false := by
  rw [firstInRange, firstAux_none_iff]
  constructor
  · intro h i h1 h2
    exact h i h1 (by omega)
  · intro h i h1 h2
    exact h i h1 (by omega)

theorem scanStep_eq_some_iff {bars : List Bar} {vol : List ℚ} {level tolerance_pct : ℚ}
    {max_retest_window takeoff_window : Nat} {takeoff_pct : ℚ} {use_atr : Bool}
    {atr_mult : ℚ} {i : Nat} {e : Event} :
    scanStep bars vol level tolerance_pct max_retest_window takeoff_window takeoff_pct use_atr atr_mult i = some e ↔
      ((closeAt bars (i - 1) < level ∧ level ≤ closeAt bars i) ∧
        ∃ r k, candidateRetest bars level tolerance_pct max_retest_window i = some r ∧
          candidateTakeoff bars vol level takeoff_pct takeoff_window use_atr atr_mult r = some k ∧
          e = mkEvent bars vol level i r k) := by
  unfold scanStep
  by_cases hc : closeAt bars (i - 1) < level ∧ level ≤ closeAt bars i
  · rw [if_pos hc]
    constructor
    · intro h
      cases hr : candidateRetest bars level tolerance_pct max_retest_window i with
      | none =>
        simp only [hr] at h
        cases h
      | some r =>
        simp only [hr] at h
        cases ht : candidateTakeoff bars vol level takeoff_pct takeoff_window use_atr atr_mult r with
        | none =>
          simp only [ht] at h
          cases h
        | some k =>
          simp only [ht, Option.some.injEq] at h
          exact ⟨hc, r, k, rfl, ht, h.symm⟩
    · rintro ⟨-, r, k, hr, ht, rfl⟩
      simp only [hr, ht]
  · rw [if_neg hc]
    constructor
    · intro h
      cases h
    · rintro ⟨hc2, -⟩
      exact absurd hc2 hc

theorem mem_scanWithVol_iff {bars : List Bar} {vol : List ℚ} {level tolerance_pct : ℚ}
    {max_retest_window takeoff_window : Nat} {takeoff_pct : ℚ} {use_atr : Bool}
    {atr_mult : ℚ} {e : Event} :
    e ∈ scanWithVol bars vol level tolerance_pct max_retest_window takeoff_window takeoff_pct use_atr atr_mult ↔
      ∃ i, (1 ≤ i ∧ i < bars.length) ∧
        scanStep bars vol level tolerance_pct max_retest_window takeoff_window takeoff_pct use_atr atr_mult i = some e := by
  rw [scanWithVol, List.mem_filterMap]
  constructor
  · rintro ⟨i, hi, hstep⟩
    have hb := mem_range'_iff.mp hi
    exact ⟨i, ⟨hb.1, by omega⟩, hstep⟩
  · rintro ⟨i, ⟨h1, h2⟩, hstep⟩
    exact ⟨i, mem_range'_iff.mpr ⟨h1, by omega⟩, hstep⟩

theorem candidateRetest_bounds {bars : List Bar} {level tolerance_pct : ℚ}
    {max_retest_window b r : Nat}
    (h : candidateRetest bars level tolerance_pct max_retest_window b = some r) :
    b + 1 ≤ r ∧ r ≤ min (bars.length - 1) (b + max_retest_window) := by
  rw [candidateRetest, firstInRange_some_iff] at h
  exact ⟨h.1, h.2.1⟩

theorem candidateTakeoff_bounds {bars : List Bar} {vol : List ℚ} {level takeoff_pct : ℚ}
    {takeoff_window : Nat} {use_atr : Bool} {atr_mult : ℚ} {r k : Nat}
    (h : candidateTakeoff bars vol level takeoff_pct takeoff_window use_atr atr_mult r = some k) :
    r + 1 ≤ k ∧ k ≤ min (bars.length - 1) (r + takeoff_window) := by
  rw [candidateTakeoff, firstInRange_some_iff] at h
  exact ⟨h.1, h.2.1⟩

theorem retestHit_true_iff {bars : List Bar} {level tol_up tol_dn : ℚ} {j : Nat} :
    retestHit bars level tol_up tol_dn j = true ↔
      (lowAt bars j ≤ tol_up ∧ tol_dn ≤ highAt bars j ∧ level ≤ closeAt bars j) := by
  simp [retestHit]

theorem retestHit_false_iff {bars : List Bar} {level tol_up tol_dn : ℚ} {j : Nat} :
    retestHit bars level tol_up tol_dn j = false ↔
      ¬(lowAt bars j ≤ tol_up ∧ tol_dn ≤ highAt bars j ∧ level ≤ closeAt bars j) := by
  simp [retestHit]

theorem trueRangeAux_length (rest : List Bar) : ∀ pc : ℚ, (trueRangeAux pc rest).length = rest.length := by
  induction rest with
  | nil =>
    intro pc
    rfl
  | cons b rest ih =>
    intro pc
    simp only [trueRangeAux, List.length_cons, ih]

theorem trueRange_length (bars : List Bar) : (trueRange bars).length = bars.length := by
  cases bars with
  | nil => rfl
  | cons b rest =>
    simp only [trueRange, List.length_cons, trueRangeAux_length]

theorem rollingMean_length (n : Nat) (xs : List ℚ) : (rollingMean n xs).length = xs.length := by
  simp [rollingMean]

theorem atr_length (bars : List Bar) (n : Nat) : (atr bars n).length = bars.length := by
  rw [atr, rollingMean_length, trueRange_length]

theorem trueRangeAux_getD (rest : List Bar) : ∀ (pc : ℚ) (m : Nat), m < rest.length →
    (trueRangeAux pc rest).getD m 0 =
      max |(rest.getD m default).high - (rest.getD m default).low|
        (max |(rest.getD m default).high - (if m = 0 then pc else (rest.getD (m - 1) default).close)|
          |(rest.getD m default).low - (if m = 0 then pc else (rest.getD (m - 1) default).close)|) := by
  induction rest with
  | nil =>
    intro pc m h
    exact absurd h (by simp)
  | cons b rest ih =>
    intro pc m h
    cases m with
    | zero =>
      simp [trueRangeAux]
    | succ m =>
      simp only [trueRangeAux, List.getD_cons_succ]
      rw [ih b.close m (by simpa using h)]
      cases m with
      | zero => simp
      | succ m => simp

theorem trueRange_getD (bars : List Bar) (j : Nat) (h : j < bars.length) :
    (trueRange bars).getD j 0 = specTR bars j := by
  cases bars with
  | nil =>
    exact absurd h (by simp)
  | cons b rest =>
    cases j with
    | zero =>
      simp [trueRange, specTR, highAt, lowAt]
    | succ m =>
      simp only [trueRange, List.getD_cons_succ]
      rw [trueRangeAux_getD rest b.close m (by simpa using h)]
      simp only [specTR, Nat.succ_ne_zero, if_false, highAt, lowAt, closeAt,
        List.getD_cons_succ, Nat.add_sub_cancel]
      cases m with
      | zero => simp
      | succ m => simp

theorem window_eq (xs : List ℚ) (a b : Nat) (hb : b ≤ xs.length) :
    (xs.take b).drop a = (List.range' a (b - a)).map (fun j => xs.getD j 0) := by
  apply List.ext_getElem
  · simp only [List.length_drop, List.length_take, List.length_map, List.length_range']
    omega
  · intro i h1 h2
    have hlt : a + i < b := by
      simp only [List.length_drop, List.length_take] at h1
      omega
    rw [List.getElem_drop, List.getElem_take, List.getElem_map, List.getElem_range']
    rw [List.getD_eq_getElem _ _ (by omega : a + 1 * i < xs.length)]
    congr 1
    omega

theorem trueRangeAux_nonneg (rest : List Bar) : ∀ (pc : ℚ), ∀ x ∈ trueRangeAux pc rest, 0 ≤ x := by
  induction rest with
  | nil =>
    intro pc x hx
    cases hx
  | cons b rest ih =>
    intro pc x hx
    rcases List.mem_cons.mp hx with hx | hx
    · rw [hx]
      exact le_trans (abs_nonneg _) (le_max_left _ _)
    · exact ih b.close x hx

theorem trueRange_nonneg (bars : List Bar) : ∀ x ∈ trueRange bars, 0 ≤ x := by
  cases bars with
  | nil =>
    intro x hx
    cases hx
  | cons b rest =>
    intro x hx
    rcases List.mem_cons.mp hx with hx | hx
    · rw [hx]
      exact abs_nonneg _
    · exact trueRangeAux_nonneg rest b.close x hx

theorem rollingMean_nonneg (n : Nat) (xs : List ℚ) (hxs : ∀ x ∈ xs, 0 ≤ x) :
    ∀ y ∈ rollingMean n xs, 0 ≤ y := by
  intro y hy
  rw [rollingMean, List.mem_map] at hy
  obtain ⟨k, -, rfl⟩ := hy
  apply div_nonneg
  · apply List.sum_nonneg
    intro x hx
    exact hxs x (List.mem_of_mem_take (List.mem_of_mem_drop hx))
  · exact Nat.cast_nonneg _

theorem atr_getD (bars : List Bar) (W k : Nat) (hk : k < bars.length) :
    (atr bars W).getD k 0 = specVol bars W k := by
  have hlen : k < (trueRange bars).length := by
    rw [trueRange_length]
    exact hk
  rw [atr, rollingMean]
  rw [List.getD_eq_getElem _ _ (by simpa using hlen)]
  rw [List.getElem_map, List.getElem_range]
  rw [window_eq (trueRange bars) (k + 1 - W) (k + 1) (by omega)]
  have hmaps : (List.range' (k + 1 - W) (k + 1 - (k + 1 - W))).map (fun j => (trueRange bars).getD j 0)
      = (List.range' (k + 1 - W) (k + 1 - (k + 1 - W))).map (specTR bars) := by
    apply List.map_congr_left
    intro j hj
    have hjb := mem_range'_iff.mp hj
    exact trueRange_getD bars j (by omega)
  rw [hmaps, specVol]
  simp [List.length_map]

/-! ## Claim theorems -/

/-- C2: every Event emitted by find_breakout_retests has
breakout_idx < retest_idx ≤ breakout_idx + max_retest_window and
retest_idx < takeoff_idx ≤ retest_idx + takeoff_window. -/
theorem event_index_invariants
    (bars : List Bar) (level tolerance_pct : ℚ) (max_retest_window takeoff_window : Nat)
    (takeoff_pct : ℚ) (use_atr : Bool) (atr_mult : ℚ) (e : Event)
    (he : e ∈ find_breakout_retests bars level tolerance_pct max_retest_window takeoff_window
      takeoff_pct use_atr atr_mult) :
    e.breakout_idx < e.retest_idx ∧ e.retest_idx ≤ e.breakout_idx + max_retest_window ∧
      e.retest_idx < e.takeoff_idx ∧ e.takeoff_idx ≤ e.retest_idx + takeoff_window := by
  rw [find_breakout_retests, mem_scanWithVol_iff] at he
  obtain ⟨i, hi, hstep⟩ := he
  rw [scanStep_eq_some_iff] at hstep
  obtain ⟨-, r, k, hr, ht, rfl⟩ := hstep
  have h1 := candidateRetest_bounds hr
  have h2 := candidateTakeoff_bounds ht
  simp only [mkEvent]
  exact ⟨by omega, by omega, by omega, by omega⟩

unseal Rat.add Rat.mul Rat.sub Rat.inv Rat.ofScientific in
/-- C2 witness: the invariants hold for the concrete event that Scenario A
emits. -/
theorem event_index_invariants_witness :
    ((find_breakout_retests scenarioA 100 (1/1000) 20 20 (1/200) false 1).getD 0 default).breakout_idx <
        ((find_breakout_retests scenarioA 100 (1/1000) 20 20 (1/200) false 1).getD 0 default).retest_idx ∧
      ((find_breakout_retests scenarioA 100 (1/1000) 20 20 (1/200) false 1).getD 0 default).retest_idx ≤
        ((find_breakout_retests scenarioA 100 (1/1000) 20 20 (1/200) false 1).getD 0 default).breakout_idx + 20 ∧
      ((find_breakout_retests scenarioA 100 (1/1000) 20 20 (1/200) false 1).getD 0 default).retest_idx <
        ((find_breakout_retests scenarioA 100 (1/1000) 20 20 (1/200) false 1).getD 0 default).takeoff_idx ∧
      ((find_breakout_retests scenarioA 100 (1/1000) 20 20 (1/200) false 1).getD 0 default).takeoff_idx ≤
        ((find_breakout_retests scenarioA 100 (1/1000) 20 20 (1/200) false 1).getD 0 default).retest_idx + 20 :=
  event_index_invariants scenarioA 100 (1/1000) 20 20 (1/200) false 1
    ((find_breakout_retests scenarioA 100 (1/1000) 20 20 (1/200) false 1).getD 0 default)
    (by decide)

/-- C3: every emitted Event carries the stated derived fields:
return_from_level_pct = (close_at_takeoff / level - 1) * 100 exactly,
bars_to_retest = retest_idx - breakout_idx, bars_to_takeoff =
takeoff_idx - retest_idx, and atr_at_takeoff is the volatility series
value at the takeoff index. -/
theorem event_field_formulas
    (bars : List Bar) (level tolerance_pct : ℚ) (max_retest_window takeoff_window : Nat)
    (takeoff_pct : ℚ) (use_atr : Bool) (atr_mult : ℚ) (e : Event)
    (he : e ∈ find_breakout_retests bars level tolerance_pct max_retest_window takeoff_window
      takeoff_pct use_atr atr_mult) :
    e.return_from_level_pct = (e.close_at_takeoff / level - 1) * 100 ∧
      e.bars_to_retest = e.retest_idx - e.breakout_idx ∧
      e.bars_to_takeoff = e.takeoff_idx - e.retest_idx ∧
      e.atr_at_takeoff = (atr bars 14).getD e.takeoff_idx 0 := by
  rw [find_breakout_retests, mem_scanWithVol_iff] at he
  obtain ⟨i, hi, hstep⟩ := he
  rw [scanStep_eq_some_iff] at hstep
  obtain ⟨-, r, k, hr, ht, rfl⟩ := hstep
  simp only [mkEvent, volAt]
  exact ⟨trivial, trivial, trivial, trivial⟩

unseal Rat.add Rat.mul Rat.sub Rat.inv Rat.ofScientific in
/-- C3 witness: the field formulas hold for the concrete event that
Scenario A emits. -/
theorem event_field_formulas_witness :
    ((find_breakout_retests scenarioA 100 (1/1000) 20 20 (1/200) false 1).getD 0 default).return_from_level_pct =
        (((find_breakout_retests scenarioA 100 (1/1000) 20 20 (1/200) false 1).getD 0 default).close_at_takeoff / 100 - 1) * 100 ∧
      ((find_breakout_retests scenarioA 100 (1/1000) 20 20 (1/200) false 1).getD 0 default).bars_to_retest =
        ((find_breakout_retests scenarioA 100 (1/1000) 20 20 (1/200) false 1).getD 0 default).retest_idx -
          ((find_breakout_retests scenarioA 100 (1/1000) 20 20 (1/200) false 1).getD 0 default).breakout_idx ∧
      ((find_breakout_retests scenarioA 100 (1/1000) 20 20 (1/200) false 1).getD 0 default).bars_to_takeoff =
        ((find_breakout_retests scenarioA 100 (1/1000) 20 20 (1/200) false 1).getD 0 default).takeoff_idx -
          ((find_breakout_retests scenarioA 100 (1/1000) 20 20 (1/200) false 1).getD 0 default).retest_idx ∧
      ((find_breakout_retests scenarioA 100 (1/1000) 20 20 (1/200) false 1).getD 0 default).atr_at_takeoff =
        (atr scenarioA 14).getD ((find_breakout_retests scenarioA 100 (1/1000) 20 20 (1/200) false 1).getD 0 default).takeoff_idx 0 :=
  event_field_formulas scenarioA 100 (1/1000) 20 20 (1/200) false 1
    ((find_breakout_retests scenarioA 100 (1/1000) 20 20 (1/200) false 1).getD 0 default)
    (by decide)

/-- C7: when the close never crosses the level from below to at/above, the
scanner returns the empty event list. -/
theorem no_cross_empty
    (bars : List Bar) (level tolerance_pct : ℚ) (max_retest_window takeoff_window : Nat)
    (takeoff_pct : ℚ) (use_atr : Bool) (atr_mult : ℚ)
    (h : ∀ i, i < bars.length → 1 ≤ i →
      ¬(closeAt bars (i - 1) < level ∧ level ≤ closeAt bars i)) :
    find_breakout_retests bars level tolerance_pct max_retest_window takeoff_window
      takeoff_pct use_atr atr_mult = [] := by
  rw [find_breakout_retests, scanWithVol, List.filterMap_eq_nil_iff]
  intro i hi
  have hb := mem_range'_iff.mp hi
  unfold scanStep
  rw [if_neg (h i (by omega) (by omega))]

unseal Rat.add Rat.mul Rat.sub Rat.inv Rat.ofScientific in
/-- C7 witness: the flat two-bar series below the level yields no events. -/
theorem no_cross_empty_witness :
    find_breakout_retests scenarioC 100 (1/1000) 20 20 (1/200) false 1 = [] :=
  no_cross_empty scenarioC 100 (1/1000) 20 20 (1/200) false 1 (by decide)

/-- C8: an input with fewer than two bars produces the empty event list,
and the empty input also produces the empty volatility series; both are
ordinary return values, not errors. -/
theorem short_input_empty
    (bars : List Bar) (level tolerance_pct : ℚ) (max_retest_window takeoff_window : Nat)
    (takeoff_pct : ℚ) (use_atr : Bool) (atr_mult : ℚ) (n : Nat) :
    (bars.length < 2 →
      find_breakout_retests bars level tolerance_pct max_retest_window takeoff_window
        takeoff_pct use_atr atr_mult = []) ∧
    (bars = [] → atr bars n = []) := by
  constructor
  · intro h
    rw [find_breakout_retests, scanWithVol]
    have hz : bars.length - 1 = 0 := by omega
    rw [hz]
    rfl
  · rintro rfl
    rfl

unseal Rat.add Rat.mul Rat.sub Rat.inv Rat.ofScientific in
/-- C8 witness: the one-bar input yields no events, and the empty input
yields an empty volatility series. -/
theorem short_input_empty_witness :
    find_breakout_retests singleBar 100 (1/1000) 20 20 (1/200) false 1 = [] ∧
      atr [] 14 = [] :=
  ⟨(short_input_empty singleBar 100 (1/1000) 20 20 (1/200) false 1 14).1 (by decide),
    (short_input_empty [] 100 (1/1000) 20 20 (1/200) false 1 14).2 rfl⟩

/-- C9: the scanner is a pure function of its inputs: two calls on equal
bar series, level and configuration return equal event lists (same
events, same order, same field values). -/
theorem scan_deterministic
    (bars1 bars2 : List Bar) (level1 level2 tolerance_pct1 tolerance_pct2 : ℚ)
    (max_retest_window1 max_retest_window2 takeoff_window1 takeoff_window2 : Nat)
    (takeoff_pct1 takeoff_pct2 : ℚ) (use_atr1 use_atr2 : Bool) (atr_mult1 atr_mult2 : ℚ)
    (hb : bars1 = bars2) (hl : level1 = level2) (htol : tolerance_pct1 = tolerance_pct2)
    (hmr : max_retest_window1 = max_retest_window2) (htw : takeoff_window1 = takeoff_window2)
    (htp : takeoff_pct1 = takeoff_pct2) (hua : use_atr1 = use_atr2) (ham : atr_mult1 = atr_mult2) :
    find_breakout_retests bars1 level1 tolerance_pct1 max_retest_window1 takeoff_window1
        takeoff_pct1 use_atr1 atr_mult1 =
      find_breakout_retests bars2 level2 tolerance_pct2 max_retest_window2 takeoff_window2
        takeoff_pct2 use_atr2 atr_mult2 := by
  rw [hb, hl, htol, hmr, htw, htp, hua, ham]

/-- C9 witness: two identical Scenario A calls agree. -/
theorem scan_deterministic_witness :
    find_breakout_retests scenarioA 100 (1/1000) 20 20 (1/200) false 1 =
      find_breakout_retests scenarioA 100 (1/1000) 20 20 (1/200) false 1 :=
  scan_deterministic scenarioA scenarioA 100 100 (1/1000) (1/1000) 20 20 20 20
    (1/200) (1/200) false false 1 1 rfl rfl rfl rfl rfl rfl rfl rfl

/-- C10: the volatility series the scanner consumes is always atr with the
fixed trailing window 14 — the scan equals the generalized scan applied
to atr(bars, 14), and every emitted event's atr_at_takeoff is that
series' value at the takeoff index.  The scanner's parameter list
(visible in the statement) exposes no window argument. -/
theorem scanner_atr_window_is_14
    (bars : List Bar) (level tolerance_pct : ℚ) (max_retest_window takeoff_window : Nat)
    (takeoff_pct : ℚ) (use_atr : Bool) (atr_mult : ℚ) :
    find_breakout_retests bars level tolerance_pct max_retest_window takeoff_window
        takeoff_pct use_atr atr_mult =
      scanWithVol bars (atr bars 14) level tolerance_pct max_retest_window takeoff_window
        takeoff_pct use_atr atr_mult ∧
    ∀ e ∈ find_breakout_retests bars level tolerance_pct max_retest_window takeoff_window
        takeoff_pct use_atr atr_mult,
      e.atr_at_takeoff = (atr bars 14).getD e.takeoff_idx 0 := by
  refine ⟨rfl, ?_⟩
  intro e he
  rw [find_breakout_retests, mem_scanWithVol_iff] at he
  obtain ⟨i, hi, hstep⟩ := he
  rw [scanStep_eq_some_iff] at hstep
  obtain ⟨-, r, k, hr, ht, rfl⟩ := hstep
  simp only [mkEvent, volAt]

unseal Rat.add Rat.mul Rat.sub Rat.inv Rat.ofScientific in
/-- C10 witness: for Scenario A the scan equals the generalized scan on
atr(bars, 14), and the emitted event's atr_at_takeoff is the 14-window
value at its takeoff index. -/
theorem scanner_atr_window_is_14_witness :
    ((find_breakout_retests scenarioA 100 (1/1000) 20 20 (1/200) false 1).getD 0 default).atr_at_takeoff =
      (atr scenarioA 14).getD
        ((find_breakout_retests scenarioA 100 (1/1000) 20 20 (1/200) false 1).getD 0 default).takeoff_idx 0 :=
  (scanner_atr_window_is_14 scenarioA 100 (1/1000) 20 20 (1/200) false 1).2
    ((find_breakout_retests scenarioA 100 (1/1000) 20 20 (1/200) false 1).getD 0 default)
    (by decide)

theorem takeoffThreshold_eq (vol : List ℚ) (level takeoff_pct : ℚ) (use_atr : Bool)
    (atr_mult : ℚ) (k : Nat) :
    takeoffThreshold vol level takeoff_pct use_atr atr_mult k =
      if use_atr then max (level * (1 + takeoff_pct)) (level + atr_mult * vol.getD k 0)
      else level * (1 + takeoff_pct) := by
  simp [takeoffThreshold, volAt]

/-- C4: for every non-empty bar series and positive window W, the
volatility series has the input's length, element k is the arithmetic
mean of the spec's TR over indices max(0, k-W+1)..k, element 0 equals
|high[0] - low[0]| (the previous-close terms are excluded at k = 0),
and every value is nonnegative. -/
theorem atr_matches_spec (bars : List Bar) (W : Nat) (hne : bars ≠ []) (hW : 1 ≤ W) :
    (atr bars W).length = bars.length ∧
      (∀ k, k < bars.length → (atr bars W).getD k 0 = specVol bars W k) ∧
      (atr bars W).getD 0 0 = |highAt bars 0 - lowAt bars 0| ∧
      (∀ x ∈ atr bars W, 0 ≤ x) := by
  have hlen0 : 0 < bars.length := by
    cases bars with
    | nil => exact absurd rfl hne
    | cons b rest => simp
  refine ⟨atr_length bars W, fun k hk => atr_getD bars W k hk, ?_, ?_⟩
  · rw [atr_getD bars W 0 hlen0, specVol]
    have h1 : 0 + 1 - W = 0 := by omega
    rw [h1]
    simp [List.range', specTR]
  · intro x hx
    exact rollingMean_nonneg W (trueRange bars) (trueRange_nonneg bars) x hx

unseal Rat.add Rat.mul Rat.sub Rat.inv Rat.ofScientific in
/-- C4 witness: the theorem instantiated on the Scenario A bars with
W = 14. -/
theorem atr_matches_spec_witness :
    (atr scenarioA 14).length = scenarioA.length ∧
      (atr scenarioA 14).getD 0 0 = |highAt scenarioA 0 - lowAt scenarioA 0| :=
  ⟨(atr_matches_spec scenarioA 14 (by decide) (by decide)).1,
    (atr_matches_spec scenarioA 14 (by decide) (by decide)).2.2.1⟩

/-- C5: the retest search for a candidate with breakout index b returns
some j exactly when j is the smallest index of the window
b+1 .. min(last_index, b+max_retest_window) with low ≤ level·(1+tol),
high ≥ level·(1-tol) and close ≥ level; and when no index of the window
qualifies, no emitted event has breakout index b. -/
theorem retest_search_spec
    (bars : List Bar) (level tolerance_pct : ℚ) (max_retest_window takeoff_window : Nat)
    (takeoff_pct : ℚ) (use_atr : Bool) (atr_mult : ℚ) (b : Nat) :
    (∀ j, candidateRetest bars level tolerance_pct max_retest_window b = some j ↔
      (b + 1 ≤ j ∧ j ≤ min (bars.length - 1) (b + max_retest_window) ∧
        (lowAt bars j ≤ level * (1 + tolerance_pct) ∧
          level * (1 - tolerance_pct) ≤ highAt bars j ∧ level ≤ closeAt bars j) ∧
        ∀ i, b + 1 ≤ i → i < j →
          ¬(lowAt bars i ≤ level * (1 + tolerance_pct) ∧
            level * (1 - tolerance_pct) ≤ highAt bars i ∧ level ≤ closeAt bars i))) ∧
    ((∀ j, b + 1 ≤ j → j ≤ min (bars.length - 1) (b + max_retest_window) →
        ¬(lowAt bars j ≤ level * (1 + tolerance_pct) ∧
          level * (1 - tolerance_pct) ≤ highAt bars j ∧ level ≤ closeAt bars j)) →
      ∀ e ∈ find_breakout_retests bars level tolerance_pct max_retest_window takeoff_window
          takeoff_pct use_atr atr_mult, e.breakout_idx ≠ b) := by
  constructor
  · intro j
    rw [candidateRetest, firstInRange_some_iff]
    constructor
    · rintro ⟨h1, h2, h3, h4⟩
      exact ⟨h1, h2, retestHit_true_iff.mp h3,
        fun i hi1 hi2 => retestHit_false_iff.mp (h4 i hi1 hi2)⟩
    · rintro ⟨h1, h2, h3, h4⟩
      exact ⟨h1, h2, retestHit_true_iff.mpr h3,
        fun i hi1 hi2 => retestHit_false_iff.mpr (h4 i hi1 hi2)⟩
  · intro hnone e he heq
    rw [find_breakout_retests, mem_scanWithVol_iff] at he
    obtain ⟨i, hi, hstep⟩ := he
    rw [scanStep_eq_some_iff] at hstep
    obtain ⟨-, r, k, hr, ht, rfl⟩ := hstep
    simp only [mkEvent] at heq
    subst heq
    rw [candidateRetest, firstInRange_some_iff] at hr
    exact hnone r hr.1 hr.2.1 (retestHit_true_iff.mp hr.2.2.1)

unseal Rat.add Rat.mul Rat.sub Rat.inv Rat.ofScientific in
/-- C5 witness: on Scenario A the candidate opened at breakout index 1
finds its retest at index 2, by the characterization. -/
theorem retest_search_spec_witness :
    candidateRetest scenarioA 100 (1/1000) 20 1 = some 2 :=
  ((retest_search_spec scenarioA 100 (1/1000) 20 20 (1/200) false 1 1).1 2).mpr
    ⟨by decide, by decide, by decide, fun i hi1 hi2 => absurd hi2 (by omega)⟩

/-- C6: the takeoff search for a candidate with retest index r, on the
volatility series the scanner uses, returns some k exactly when k is the
smallest index of the window r+1 .. min(last_index, r+takeoff_window)
whose close reaches level·(1+takeoff_pct), raised to
max(level·(1+takeoff_pct), level + atr_mult·VolatilitySeries[k]) when
the gate is on; and when no index of the window qualifies, no emitted
event has retest index r. -/
theorem takeoff_search_spec
    (bars : List Bar) (level tolerance_pct : ℚ) (max_retest_window takeoff_window : Nat)
    (takeoff_pct : ℚ) (use_atr : Bool) (atr_mult : ℚ) (r : Nat) :
    (∀ k, candidateTakeoff bars (atr bars 14) level takeoff_pct takeoff_window use_atr atr_mult r = some k ↔
      (r + 1 ≤ k ∧ k ≤ min (bars.length - 1) (r + takeoff_window) ∧
        (if use_atr then
            max (level * (1 + takeoff_pct)) (level + atr_mult * (atr bars 14).getD k 0)
          else level * (1 + takeoff_pct)) ≤ closeAt bars k ∧
        ∀ i, r + 1 ≤ i → i < k →
          ¬((if use_atr then
              max (level * (1 + takeoff_pct)) (level + atr_mult * (atr bars 14).getD i 0)
            else level * (1 + takeoff_pct)) ≤ closeAt bars i))) ∧
    ((∀ k, r + 1 ≤ k → k ≤ min (bars.length - 1) (r + takeoff_window) →
        ¬((if use_atr then
            max (level * (1 + takeoff_pct)) (level + atr_mult * (atr bars 14).getD k 0)
          else level * (1 + takeoff_pct)) ≤ closeAt bars k)) →
      ∀ e ∈ find_breakout_retests bars level tolerance_pct max_retest_window takeoff_window
          takeoff_pct use_atr atr_mult, e.retest_idx ≠ r) := by
  constructor
  · intro k
    rw [candidateTakeoff, firstInRange_some_iff]
    simp only [decide_eq_true_eq, decide_eq_false_iff_not, takeoffThreshold_eq]
  · intro hnone e he heq
    rw [find_breakout_retests, mem_scanWithVol_iff] at he
    obtain ⟨i, hi, hstep⟩ := he
    rw [scanStep_eq_some_iff] at hstep
    obtain ⟨-, r2, k, hr, ht, rfl⟩ := hstep
    simp only [mkEvent] at heq
    subst heq
    rw [candidateTakeoff, firstInRange_some_iff] at ht
    have hcond := ht.2.2.1
    simp only [decide_eq_true_eq, takeoffThreshold_eq] at hcond
    exact hnone k ht.1 ht.2.1 hcond

unseal Rat.add Rat.mul Rat.sub Rat.inv Rat.ofScientific in
/-- C6 witness: on Scenario A the candidate with retest index 2 finds its
takeoff at index 3, by the characterization. -/
theorem takeoff_search_spec_witness :
    candidateTakeoff scenarioA (atr scenarioA 14) 100 (1/200) 20 false 1 2 = some 3 :=
  ((takeoff_search_spec scenarioA 100 (1/1000) 20 20 (1/200) false 1 2).1 3).mpr
    ⟨by decide, by decide, by decide, fun i hi1 hi2 => absurd hi2 (by omega)⟩

unseal Rat.add Rat.mul Rat.sub Rat.inv Rat.ofScientific in
/-- C1: on the Scenario A input (level 100, tolerance 0.1%, windows 20,
takeoff 0.5%, volatility gate off) the scanner emits exactly one Event,
with breakout index 1, retest index 2, takeoff index 3 and
return_from_level_pct = 0.6. -/
theorem scenarioA_exactly_one_event :
    (find_breakout_retests scenarioA 100 (1/1000) 20 20 (1/200) false 1).length = 1 ∧
      ((find_breakout_retests scenarioA 100 (1/1000) 20 20 (1/200) false 1).getD 0 default).breakout_idx = 1 ∧
      ((find_breakout_retests scenarioA 100 (1/1000) 20 20 (1/200) false 1).getD 0 default).retest_idx = 2 ∧
      ((find_breakout_retests scenarioA 100 (1/1000) 20 20 (1/200) false 1).getD 0 default).takeoff_idx = 3 ∧
      ((find_breakout_retests scenarioA 100 (1/1000) 20 20 (1/200) false 1).getD 0 default).return_from_level_pct = 0.6 := by
  decide

end LevelRetest
